import Mathlib

/- Verification development for the YouTube comment event-extraction
repository (main.py, src/analyzer.py, src/fetcher.py).  The Python code is
shallowly embedded: pure string processing is modelled over `List Char`,
Python regex searches over the fixed pattern list are expanded into explicit
substring matchers, `dict` is modelled as an insertion-ordered association
list, and Python's stable `list.sort` is modelled by `List.insertionSort`
(any two stable sorts of the same list under the same total preorder agree,
so insertion sort is an exact model of Timsort's input/output behaviour). -/

/-- Whitespace as stripped by Python `str.strip()` and matched by the regex
class `\s` (ASCII whitespace plus the two common non-ASCII space characters;
the repository's data only exercises the ASCII part). -/
def isPyWs (c : Char) : Bool :=
  c == ' ' || c == '\t' || c == '\n' || c == '\r' ||
    c.toNat == 11 || c.toNat == 12 || c.toNat == 0x3000 || c.toNat == 0xa0

/-- `text.strip()`: drop leading and trailing whitespace. -/
def pyStrip (cs : List Char) : List Char :=
  ((cs.dropWhile isPyWs).reverse.dropWhile isPyWs).reverse

/-- Literal match at the head of the list. -/
def litHere : List Char → List Char → Bool
  | [], _ => true
  | _ :: _, [] => false
  | p :: ps, c :: cs => p == c && litHere ps cs

/-- Substring containment: the pattern occurs at some position. -/
def hasSub (p : List Char) : List Char → Bool
  | [] => litHere p []
  | c :: cs => litHere p (c :: cs) || hasSub p cs

/-- Does some suffix of the list satisfy the positional matcher?  This is
`re.search`: a regex matches the text iff it matches at some position. -/
def anySuffix (p : List Char → Bool) : List Char → Bool
  | [] => p []
  | c :: cs => p (c :: cs) || anySuffix p cs

/-- Consume an exact literal, returning the remainder. -/
def afterLit : List Char → List Char → Option (List Char)
  | [], cs => some cs
  | _ :: _, [] => none
  | p :: ps, c :: cs => if p == c then afterLit ps cs else none

/-- The head exists and is not whitespace (the regex `[^\s]+` needs at least
one non-whitespace character). -/
def headNonWs : List Char → Bool
  | [] => false
  | c :: _ => !(isPyWs c)

def lit_http : List Char := ("http://").data
def lit_https : List Char := ("https://").data
def lit_www : List Char := ("www.").data
def lit_com : List Char := (".com").data
def lit_net : List Char := (".net").data
def lit_org : List Char := (".org").data
def lit_jp : List Char := (".jp").data

/-- Position-wise match of `https?://[^\s]+` or `www\.[^\s]+`. -/
def urlHere (cs : List Char) : Bool :=
  (match afterLit lit_http cs with
   | some rest => headNonWs rest
   | none => false) ||
  (match afterLit lit_https cs with
   | some rest => headNonWs rest
   | none => false) ||
  (match afterLit lit_www cs with
   | some rest => headNonWs rest
   | none => false)

/-- `EventAnalyzer.url_pattern.search(text)`: the regex
`https?://[^\s]+|www\.[^\s]+|\.com|\.net|\.org|\.jp` matches somewhere. -/
def url_pattern_search (cs : List Char) : Bool :=
  anySuffix urlHere cs || hasSub lit_com cs || hasSub lit_net cs ||
    hasSub lit_org cs || hasSub lit_jp cs

/-- `EventAnalyzer.event_keywords` (src/analyzer.py, __init__). -/
def event_keywords : List String :=
  ["開催", "集合", "ライブ", "オフ会", "発売", "スタート",
   "場所", "チケット", "イベント", "会場", "参加", "予約",
   "開始", "終了", "開催日", "日程", "日時"]

/-- `contains_event_keyword`: lowercase the text, then look for any keyword
as a substring (src/analyzer.py lines 69-83). -/
def contains_event_keyword (text : String) : Bool :=
  let lower := text.data.map Char.toLower
  event_keywords.any (fun k => hasSub k.data lower)

/-- Positional match of `\d{1,2}月\d{1,2}日`. -/
def monthDayHere : List Char → Bool
  | a :: b :: c :: rest =>
    a.isDigit && b == '月' && c.isDigit &&
      (match rest with
       | d :: rest2 =>
         d == '日' ||
           (d.isDigit && (match rest2 with
            | e :: _ => e == '日'
            | [] => false))
       | [] => false)
  | _ => false

/-- Positional match of `\d{1,2}SEP\d{1,2}` for a separator character
(covers the `/` and `-` date patterns). -/
def sepNumHere (sep : Char) : List Char → Bool
  | a :: b :: c :: _ => a.isDigit && b == sep && c.isDigit
  | _ => false

/-- Positional match of `\d{1,2}時`. -/
def hourHere : List Char → Bool
  | a :: b :: _ => a.isDigit && b == '時'
  | _ => false

/-- Positional match of `\d{1,2}:\d{2}`. -/
def clockHere : List Char → Bool
  | a :: b :: c :: d :: _ => a.isDigit && b == ':' && c.isDigit && d.isDigit
  | _ => false

/-- Positional match of `午前\d{1,2}時` and `午後\d{1,2}時` (`second` is the
second character, 前 or 後). -/
def gozenHere (second : Char) : List Char → Bool
  | a :: b :: c :: rest =>
    a == '午' && b == second && c.isDigit &&
      (match rest with
       | d :: rest2 =>
         d == '時' ||
           (d.isDigit && (match rest2 with
            | e :: _ => e == '時'
            | [] => false))
       | [] => false)
  | _ => false

/-- Positional match of `AM\d{1,2}` and `PM\d{1,2}` (`first` is A or P);
one digit after the letters is enough for a search hit. -/
def ampmHere (first : Char) : List Char → Bool
  | a :: b :: c :: _ => a == first && b == 'M' && c.isDigit
  | _ => false

/-- The digit-bearing date/time patterns of `EventAnalyzer.date_patterns`,
as a single positional matcher. -/
def dateHere (cs : List Char) : Bool :=
  monthDayHere cs || sepNumHere ('/') cs || sepNumHere ('-') cs ||
    hourHere cs || clockHere cs || gozenHere ('前') cs || gozenHere ('後') cs ||
    ampmHere ('A') cs || ampmHere ('P') cs

/-- The plain-literal date/time patterns of `EventAnalyzer.date_patterns`. -/
def date_literal_terms : List String :=
  ["明日", "明後日", "来週", "来月", "今週", "今月",
   "土曜", "日曜", "月曜", "火曜", "水曜", "木曜", "金曜"]

/-- `contains_future_date` (src/analyzer.py lines 54-67): some pattern of
`date_patterns` matches the text. -/
def contains_future_date (text : String) : Bool :=
  anySuffix dateHere text.data ||
    date_literal_terms.any (fun p => hasSub p.data text.data)

/-- `is_spam` (src/analyzer.py lines 85-104): URL-like pattern found, or the
stripped length is below 5 or above 500 characters. -/
def is_spam (text : String) : Bool :=
  url_pattern_search text.data ||
    (let n := (pyStrip text.data).length
     decide (n < 5) || decide (500 < n))

/-- A fetched comment (the dict produced by the fetcher: comment_id, text,
author, published_at). -/
structure Comment where
  comment_id : String
  text : String
  author : String
  published_at : String
deriving DecidableEq

/-- A persisted event record.  `extracted_at` is optional because merged
records are arbitrary JSON objects and may lack the field (merge sorts such
records with key `''`). -/
structure EventRecord where
  comment_id : String
  text : String
  author : String
  published_at : String
  extracted_at : Option String
deriving DecidableEq

/-- `extract_event_info` (src/analyzer.py lines 106-143).  The call
`datetime.utcnow().isoformat()` is modelled by the `nowIso` parameter; the
code appends the literal Z to it. -/
def extract_event_info (nowIso : String) (c : Comment) : Option EventRecord :=
  let text := c.text
  if is_spam text then none
  else if !(contains_future_date text) then none
  else if !(contains_event_keyword text) then none
  else some { comment_id := c.comment_id, text := text, author := c.author,
              published_at := c.published_at,
              extracted_at := some (nowIso ++ ("Z")) }

/-- `analyze_comments` (src/analyzer.py lines 145-164): keep the comments
for which extraction succeeds. -/
def analyze_comments (nowIso : String) (comments : List Comment) : List EventRecord :=
  comments.filterMap (extract_event_info nowIso)

/-- Python's string `<`: lexicographic comparison by code point. -/
def strLexLt : List Char → List Char → Bool
  | [], [] => false
  | [], _ :: _ => true
  | _ :: _, [] => false
  | a :: as, b :: bs => if a = b then strLexLt as bs else decide (a.toNat < b.toNat)

/-- The total preorder used by a Python stable sort that orders by a
`List Char` key in descending order: `a` may be placed before `b` iff the
key of `a` is at least the key of `b`. -/
def keyDesc {α : Type} (key : α → List Char) (a b : α) : Prop :=
  strLexLt (key b) (key a) = true ∨ key a = key b

instance {α : Type} (key : α → List Char) : DecidableRel (keyDesc key) := fun a b => by
  unfold keyDesc; infer_instance

/-- The sort key of `merge_events`: `x.get('extracted_at', '')`
(src/main.py line 98). -/
def mergeSortKey (e : EventRecord) : List Char := (e.extracted_at.getD ("")).data

/-- `dict` insertion (`d[k] = v`): overwrite the first binding of the key in
insertion order, else append a new binding at the end. -/
def dictInsert (k : String) (v : EventRecord) :
    List (String × EventRecord) → List (String × EventRecord)
  | [] => [(k, v)]
  | p :: d => if p.1 = k then (p.1, v) :: d else p :: dictInsert k v d

/-- Fold a record list into a comment_id-keyed dict, as done by the dict
comprehension and the update loop of `merge_events` (src/main.py 88-92). -/
def eventDict (events : List EventRecord) (d : List (String × EventRecord)) :
    List (String × EventRecord) :=
  events.foldl (fun acc e => dictInsert e.comment_id e acc) d

/-- `merge_events` (src/main.py lines 76-100): build a dict keyed by
comment_id from the existing events, overwrite/insert each new event, take
the values, and stable-sort them by `get('extracted_at', '')` descending. -/
def merge_events (existing_events new_events : List EventRecord) : List EventRecord :=
  List.insertionSort (keyDesc mergeSortKey)
    ((eventDict new_events (eventDict existing_events [])).map (fun p => p.2))

/-- `dict` lookup on the association-list model. -/
def dlookup (k : String) : List (String × EventRecord) → Option EventRecord
  | [] => none
  | p :: d => if p.1 = k then some p.2 else dlookup k d

/-- The last record of the list carrying the given comment_id, if any. -/
def lastWith (idv : String) : List EventRecord → Option EventRecord
  | [] => none
  | e :: l =>
    match lastWith idv l with
    | some r => some r
    | none => if e.comment_id = idv then some e else none

/-- Per-video statistics as used by the keyword-search filter
(`get_video_statistics` result entries; only the consulted fields). -/
structure VideoStat where
  comment_count : Nat
  published_at : String
deriving DecidableEq

/-- A surviving candidate of the keyword-search filter
(src/fetcher.py lines 286-291). -/
structure FilteredVideo where
  video_id : String
  comment_count : Nat
  days_old : Int
  published_at : String
deriving DecidableEq

/-- The sort order of `filtered_videos.sort(key=lambda x:
(-x['comment_count'], x['days_old']))` (src/fetcher.py line 294): `a` may be
placed before `b` iff its tuple key is less or equal, i.e. descending
comment_count with ties broken by ascending days_old. -/
def videoRank (a b : FilteredVideo) : Prop :=
  b.comment_count < a.comment_count ∨
    (a.comment_count = b.comment_count ∧ a.days_old ≤ b.days_old)

instance : DecidableRel videoRank := fun a b => by
  unfold videoRank; infer_instance

/-- The filtering loop of `search_videos_by_keyword` (src/fetcher.py lines
260-291).  `stats` models the statistics dictionary (absent entry: the
candidate is skipped); `daysOld` models parsing `published_at` and taking
`(now - published_at).days` (parse failure: skipped). -/
def filter_candidates (stats : String → Option VideoStat) (daysOld : String → Option Int)
    (candidates : List String) (min_comment_count : Nat) (days_old_max : Int) :
    List FilteredVideo :=
  candidates.filterMap (fun v =>
    match stats v with
    | none => none
    | some s =>
      if s.comment_count < min_comment_count then none
      else
        match daysOld s.published_at with
        | none => none
        | some d =>
          if days_old_max < d then none
          else some { video_id := v, comment_count := s.comment_count,
                      days_old := d, published_at := s.published_at })

/-- The filter/sort/truncate tail of `search_videos_by_keyword`
(src/fetcher.py lines 260-300), starting from the fetched candidate pool. -/
def search_videos_by_keyword (stats : String → Option VideoStat)
    (daysOld : String → Option Int) (candidates : List String)
    (max_videos min_comment_count : Nat) (days_old_max : Int) : List String :=
  ((List.insertionSort videoRank
      (filter_candidates stats daysOld candidates min_comment_count days_old_max)).take
    max_videos).map (fun v => v.video_id)

/-- The sequential accumulation loop shared by the keyword and category
branches of `fetch_comments` (src/fetcher.py lines 418-424): fetch each
video's comments, extend the accumulator, and break as soon as the running
total reaches `max_results`.  `get` models `get_video_comments`. -/
def fetchLoop (get : String → Nat → List Comment) (per_video max_results : Nat) :
    List String → List Comment → List Comment
  | [], acc => acc
  | vid :: rest, acc =>
    let acc2 := acc ++ get vid per_video
    if max_results ≤ acc2.length then acc2
    else fetchLoop get per_video max_results rest acc2

/-- The comment-aggregation body of `fetch_comments` over an already-selected
video id list (src/fetcher.py lines 414-425): empty selection returns empty
before the per-video budget `max_results // len(video_ids) + 1` is computed;
otherwise run the loop and truncate to `max_results`. -/
def fetch_comments_for_videos (get : String → Nat → List Comment)
    (video_ids : List String) (max_results : Nat) : List Comment :=
  if video_ids.isEmpty then []
  else
    (fetchLoop get (max_results / video_ids.length + 1) max_results video_ids []).take
      max_results

/-- Python truthiness of an optional string: `None` and the empty string are
falsy. -/
def truthy : Option String → Bool
  | none => false
  | some s => !(decide (s = ("")))

/-- The targeting branch selected by `fetch_comments` (src/fetcher.py lines
394-443): the if/elif chain tests `video_id`, then `channel_id`, then
`search_keyword`, then `category_id`; with none of them truthy it logs an
error and returns empty (`idle`). -/
inductive FetchBranch where
  | video : FetchBranch
  | channel : FetchBranch
  | keyword : FetchBranch
  | category : FetchBranch
  | idle : FetchBranch
deriving DecidableEq

def fetch_comments_branch (video_id channel_id category_id search_keyword :
    Option String) : FetchBranch :=
  if truthy video_id then FetchBranch.video
  else if truthy channel_id then FetchBranch.channel
  else if truthy search_keyword then FetchBranch.keyword
  else if truthy category_id then FetchBranch.category
  else FetchBranch.idle

/-- The `search_keyword` argument `main` passes to `fetch_comments`
(src/main.py line 140): the keyword only when no video, channel, or category
id is configured, otherwise `None`. -/
def main_keyword_arg (video_id channel_id category_id : Option String)
    (search_keyword : String) : Option String :=
  if !(truthy video_id) && !(truthy channel_id) && !(truthy category_id) then
    some search_keyword
  else none

/-- The branch `fetch_comments` takes when invoked from `main`. -/
def main_branch (video_id channel_id category_id : Option String)
    (search_keyword : String) : FetchBranch :=
  fetch_comments_branch video_id channel_id category_id
    (main_keyword_arg video_id channel_id category_id search_keyword)

/-- A JSON value, as produced by `json.load`. -/
inductive JValue where
  | null : JValue
  | jbool : Bool → JValue
  | jnum : Int → JValue
  | jstr : String → JValue
  | jarr : List JValue → JValue
  | jobj : List (String × JValue) → JValue

/-- A hashable JSON scalar, usable as a Python dict key; lists and dicts are
unhashable and raise `TypeError` when used as keys. -/
inductive JKey where
  | knull : JKey
  | kbool : Bool → JKey
  | knum : Int → JKey
  | kstr : String → JKey
deriving DecidableEq

def toKey : JValue → Option JKey
  | JValue.null => some JKey.knull
  | JValue.jbool b => some (JKey.kbool b)
  | JValue.jnum n => some (JKey.knum n)
  | JValue.jstr s => some (JKey.kstr s)
  | JValue.jarr _ => none
  | JValue.jobj _ => none

/-- The observable states of the persisted store file
(`data/events.json`). -/
inductive StoreFile where
  | absent : StoreFile
  | malformed : StoreFile
  | wellFormed : JValue → StoreFile

/-- `load_existing_events` (src/main.py lines 21-48): a missing file,
unparsable content, and parsable non-list content all yield the empty list;
a JSON array is returned as-is (its elements are arbitrary JSON values). -/
def load_existing_events : StoreFile → List JValue
  | StoreFile.absent => []
  | StoreFile.malformed => []
  | StoreFile.wellFormed (JValue.jarr xs) => xs
  | StoreFile.wellFormed _ => []

/-- JSON-object key lookup. -/
def jlookup (k : String) : List (String × JValue) → Option JValue
  | [] => none
  | p :: kvs => if p.1 = k then some p.2 else jlookup k kvs

/-- `event['comment_id']`: `none` models the exception raised when the event
is not a dict or lacks the key (`TypeError`/`KeyError`). -/
def getCommentId : JValue → Option JValue
  | JValue.jobj kvs => jlookup ("comment_id") kvs
  | _ => none

/-- Python dict insertion, keys being JSON scalars. -/
def jdictInsert (k : JKey) (v : JValue) :
    List (JKey × JValue) → List (JKey × JValue)
  | [] => [(k, v)]
  | p :: d => if p.1 = k then (p.1, v) :: d else p :: jdictInsert k v d

/-- The dict-building part of `merge_events` over raw JSON events
(src/main.py lines 88-92): `none` models the uncaught exception raised when
an event is not a dict with a hashable `comment_id`. -/
def buildJDict : List JValue → List (JKey × JValue) → Option (List (JKey × JValue))
  | [], d => some d
  | e :: rest, d =>
    match getCommentId e with
    | none => none
    | some kj =>
      match toKey kj with
      | none => none
      | some k => buildJDict rest (jdictInsert k e d)

/-- The sort key `x.get('extracted_at', '')` of a raw JSON event: `some ''`
when the field is missing, the string itself when it is a string, `none`
when the value is not a string (such keys are not comparable with the string
default, so sorting a mixed list raises `TypeError` in Python). -/
def jextractedKey : JValue → Option String
  | JValue.jobj kvs =>
    (match jlookup ("extracted_at") kvs with
     | none => some ("")
     | some (JValue.jstr s) => some s
     | some _ => none)
  | _ => none

def jSortKey (v : JValue) : List Char := ((jextractedKey v).getD ("")).data

/-- `merge_events` over raw JSON events (src/main.py lines 76-100), with
`none` modelling an uncaught exception.  Python's sort raises only when it
actually compares two keys of incompatible types; we require all sort keys
to be strings, which coincides with Python's behaviour on every store the
theorems below evaluate (well-formed stores and analyzer output have string
keys throughout, and the failing store below is rejected while the dict is
being built, before any sort). -/
def merge_events_json (existing_events new_events : List JValue) :
    Option (List JValue) :=
  match buildJDict existing_events [] with
  | none => none
  | some d0 =>
    match buildJDict new_events d0 with
    | none => none
    | some d =>
      let vals := d.map (fun p => p.2)
      if vals.all (fun v => (jextractedKey v).isSome) then
        some (List.insertionSort (keyDesc jSortKey) vals)
      else none

/-- The JSON object `extract_event_info` returns (src/analyzer.py 137-143),
as it would be serialised into the store. -/
def eventToJson (e : EventRecord) : JValue :=
  JValue.jobj
    [(("comment_id"), JValue.jstr e.comment_id),
     (("text"), JValue.jstr e.text),
     (("author"), JValue.jstr e.author),
     (("published_at"), JValue.jstr e.published_at),
     (("extracted_at"), JValue.jstr (e.extracted_at.getD ("")))]

/-- `main` (src/main.py lines 103-177), with the fetch abstracted to the
resulting comment list and the filesystem to `store`/`saveOk`.  The result
is the exit status paired with the merged list written by `save_events`
(`none` when nothing was saved).  The `none` arm of the merge models the
exception raised inside `merge_events`, which the top-level handler converts
to exit status 1. -/
def mainRun (api_key : Option String) (store : StoreFile)
    (comments : List Comment) (nowIso : String) (saveOk : Bool) :
    Int × Option (List JValue) :=
  if !(truthy api_key) then (1, none)
  else
    let existing := load_existing_events store
    if comments.isEmpty then (0, none)
    else
      let newEvents := analyze_comments nowIso comments
      if newEvents.isEmpty then (0, none)
      else
        match merge_events_json existing (newEvents.map eventToJson) with
        | none => (1, none)
        | some merged =>
          if merged.length = existing.length then (0, none)
          else if saveOk then (0, some merged) else (1, none)


/- Order-theoretic facts about the lexicographic comparison and the sort
preorders. -/

theorem char_toNat_inj {a b : Char} (h : a.toNat = b.toNat) : a = b := by
  have hv : a.val = b.val := by
    have h2 := h
    simp [Char.toNat, UInt32.toNat] at h2
    exact UInt32.eq_of_val_eq (Fin.eq_of_val_eq h2)
  exact Char.eq_of_val_eq hv

theorem string_data_inj {a b : String} (h : a.data = b.data) : a = b := by
  cases a; cases b; simp only at h; rw [h]

theorem strLexLt_nil_right (x : List Char) : strLexLt x [] = false := by
  cases x <;> rfl

theorem strLexLt_irrefl (x : List Char) : strLexLt x x = false := by
  induction x with
  | nil => rfl
  | cons a as ih => simp [strLexLt, ih]

theorem strLexLt_trans :
    ∀ x y z : List Char, strLexLt x y = true → strLexLt y z = true →
      strLexLt x z = true := by
  intro x
  induction x with
  | nil =>
    intro y z hxy hyz
    cases y with
    | nil => simp [strLexLt] at hxy
    | cons b bs =>
      cases z with
      | nil => simp [strLexLt_nil_right] at hyz
      | cons c cs => simp [strLexLt]
  | cons a as ih =>
    intro y z hxy hyz
    cases y with
    | nil => simp [strLexLt_nil_right] at hxy
    | cons b bs =>
      cases z with
      | nil => simp [strLexLt_nil_right] at hyz
      | cons c cs =>
        simp only [strLexLt] at hxy hyz ⊢
        by_cases hab : a = b
        · subst hab
          simp only [if_pos rfl] at hxy
          by_cases hac : a = c
          · subst hac
            simp only [if_pos rfl] at hyz ⊢
            exact ih bs cs hxy hyz
          · simp only [if_neg hac] at hyz ⊢
            exact hyz
        · simp only [if_neg hab] at hxy
          by_cases hbc : b = c
          · subst hbc
            have hac : a ≠ b := hab
            simp only [if_neg hac]
            exact hxy
          · simp only [if_neg hbc] at hyz
            have h1 : a.toNat < b.toNat := of_decide_eq_true hxy
            have h2 : b.toNat < c.toNat := of_decide_eq_true hyz
            have h3 : a.toNat < c.toNat := Nat.lt_trans h1 h2
            have hac : a ≠ c := by
              intro he; subst he
              exact absurd rfl (Nat.ne_of_lt h3)
            simp [if_neg hac, h3]

theorem strLexLt_total (x y : List Char) :
    strLexLt x y = true ∨ x = y ∨ strLexLt y x = true := by
  induction x generalizing y with
  | nil =>
    cases y with
    | nil => exact Or.inr (Or.inl rfl)
    | cons b bs => exact Or.inl rfl
  | cons a as ih =>
    cases y with
    | nil => exact Or.inr (Or.inr rfl)
    | cons b bs =>
      by_cases hab : a = b
      · subst hab
        rcases ih bs with h | h | h
        · exact Or.inl (by simp [strLexLt, h])
        · exact Or.inr (Or.inl (by rw [h]))
        · exact Or.inr (Or.inr (by simp [strLexLt, h]))
      · rcases Nat.lt_trichotomy a.toNat b.toNat with h | h | h
        · exact Or.inl (by simp [strLexLt, if_neg hab, h])
        · exact absurd (char_toNat_inj h) hab
        · have hba : b ≠ a := fun he => hab he.symm
          exact Or.inr (Or.inr (by simp [strLexLt, if_neg hba, h]))

theorem strLexLt_asymm {x y : List Char} (h : strLexLt x y = true) :
    strLexLt y x = false := by
  by_contra hne
  have h2 : strLexLt y x = true := by
    cases hx : strLexLt y x
    · exact absurd hx hne
    · rfl
  have := strLexLt_trans x y x h h2
  rw [strLexLt_irrefl] at this
  exact Bool.noConfusion this

instance keyDescTotal {α : Type} (key : α → List Char) : IsTotal α (keyDesc key) := by
  constructor
  intro a b
  rcases strLexLt_total (key a) (key b) with h | h | h
  · exact Or.inr (Or.inl h)
  · exact Or.inl (Or.inr h)
  · exact Or.inl (Or.inl h)

instance keyDescTrans {α : Type} (key : α → List Char) : IsTrans α (keyDesc key) := by
  constructor
  intro a b c hab hbc
  rcases hab with hab | hab <;> rcases hbc with hbc | hbc
  · exact Or.inl (strLexLt_trans _ _ _ hbc hab)
  · exact Or.inl (by rw [← hbc]; exact hab)
  · exact Or.inl (by rw [hab]; exact hbc)
  · exact Or.inr (hab.trans hbc)

instance videoRankTotal : IsTotal FilteredVideo videoRank := by
  constructor
  intro a b
  unfold videoRank
  rcases Nat.lt_trichotomy a.comment_count b.comment_count with h | h | h
  · exact Or.inr (Or.inl h)
  · rcases Int.le_total a.days_old b.days_old with hd | hd
    · exact Or.inl (Or.inr ⟨h, hd⟩)
    · exact Or.inr (Or.inr ⟨h.symm, hd⟩)
  · exact Or.inl (Or.inl h)

instance videoRankTrans : IsTrans FilteredVideo videoRank := by
  constructor
  intro a b c hab hbc
  unfold videoRank at hab hbc ⊢
  rcases hab with h1 | ⟨e1, d1⟩ <;> rcases hbc with h2 | ⟨e2, d2⟩
  · exact Or.inl (Nat.lt_trans h2 h1)
  · exact Or.inl (by rw [← e2]; exact h1)
  · exact Or.inl (by rw [e1]; exact h2)
  · exact Or.inr ⟨e1.trans e2, d1.trans d2⟩

/- Association-list dict lemmas. -/

theorem dlookup_dictInsert (k k' : String) (v : EventRecord) :
    ∀ d, dlookup k' (dictInsert k v d) = if k = k' then some v else dlookup k' d := by
  intro d
  induction d with
  | nil => simp [dictInsert, dlookup]
  | cons p rest ih =>
    by_cases hpk : p.1 = k
    · by_cases hkk : k = k'
      · subst hkk
        simp [dictInsert, dlookup, hpk]
      · have hpk' : p.1 ≠ k' := by rw [hpk]; exact hkk
        simp [dictInsert, dlookup, hpk, hkk, hpk']
    · by_cases hpk' : p.1 = k'
      · have hkk : k ≠ k' := by
          intro he; subst he; exact hpk hpk'
        have hkk' : k' ≠ k := fun he => hkk he.symm
        simp [dictInsert, dlookup, hpk, hpk', hkk, hkk']
      · simp [dictInsert, dlookup, hpk, hpk', ih]

theorem eventDict_cons (e : EventRecord) (l : List EventRecord)
    (d : List (String × EventRecord)) :
    eventDict (e :: l) d = eventDict l (dictInsert e.comment_id e d) := rfl

theorem dlookup_eventDict (k' : String) :
    ∀ (l : List EventRecord) (d : List (String × EventRecord)),
      dlookup k' (eventDict l d) =
        (match lastWith k' l with
         | some r => some r
         | none => dlookup k' d) := by
  intro l
  induction l with
  | nil => intro d; rfl
  | cons e l ih =>
    intro d
    rw [eventDict_cons, ih]
    cases hl : lastWith k' l with
    | some r => simp [lastWith, hl]
    | none =>
      simp only [lastWith, hl, dlookup_dictInsert]
      by_cases he : e.comment_id = k'
      · simp [he]
      · simp [he]

theorem dlookup_mem (k : String) :
    ∀ d (r : EventRecord), dlookup k d = some r → r ∈ d.map (fun p => p.2) := by
  intro d
  induction d with
  | nil => intro r h; simp [dlookup] at h
  | cons p rest ih =>
    intro r h
    by_cases hp : p.1 = k
    · simp only [dlookup, if_pos hp] at h
      simp [Option.some_inj.mp h]
    · simp only [dlookup, if_neg hp] at h
      simp [ih r h]

theorem dkeys_dictInsert (k : String) (v : EventRecord) :
    ∀ d, (dictInsert k v d).map (fun p => p.1) =
      if k ∈ d.map (fun p => p.1) then d.map (fun p => p.1)
      else d.map (fun p => p.1) ++ [k] := by
  intro d
  induction d with
  | nil => simp [dictInsert]
  | cons p rest ih =>
    by_cases hp : p.1 = k
    · have hm : k ∈ (p :: rest).map (fun p => p.1) := by simp [hp.symm]
      simp [dictInsert, hp, hm]
    · have hne : k ≠ p.1 := fun he => hp he.symm
      by_cases hk : k ∈ rest.map (fun p => p.1)
      · have hm : k ∈ (p :: rest).map (fun p => p.1) := by simp [hk]
        simp [dictInsert, hp, ih, hk, hm]
      · have hm : k ∉ (p :: rest).map (fun p => p.1) := by simp [hne, hk]
        simp [dictInsert, hp, ih, hk, hm, hne]

theorem nodup_keys_dictInsert (k : String) (v : EventRecord)
    (d : List (String × EventRecord)) (h : (d.map (fun p => p.1)).Nodup) :
    ((dictInsert k v d).map (fun p => p.1)).Nodup := by
  rw [dkeys_dictInsert]
  by_cases hk : k ∈ d.map (fun p => p.1)
  · rw [if_pos hk]; exact h
  · rw [if_neg hk]
    simp [List.nodup_append, h, hk]

theorem dlookup_isSome (k : String) :
    ∀ d, ((dlookup k d).isSome = true) ↔ k ∈ d.map (fun p => p.1) := by
  intro d
  induction d with
  | nil => simp [dlookup]
  | cons p rest ih =>
    by_cases hp : p.1 = k
    · simp only [dlookup, if_pos hp, List.map_cons, Option.isSome_some]
      constructor
      · intro _; exact List.mem_cons.mpr (Or.inl hp.symm)
      · intro _; trivial
    · have hne : k ≠ p.1 := fun he => hp he.symm
      simp [dlookup, hp, hne, ih]

theorem lastWith_eq_none (k : String) :
    ∀ l : List EventRecord,
      lastWith k l = none ↔ k ∉ l.map (fun e => e.comment_id) := by
  intro l
  induction l with
  | nil => simp [lastWith]
  | cons e l ih =>
    simp only [List.map_cons, List.mem_cons, not_or]
    cases hl : lastWith k l with
    | some r =>
      simp only [lastWith, hl]
      constructor
      · intro h; exact Option.noConfusion h
      · rintro ⟨h1, h2⟩
        exact Option.noConfusion ((ih.mpr h2).symm.trans hl)
    | none =>
      simp only [lastWith, hl]
      by_cases he : e.comment_id = k
      · rw [if_pos he]
        constructor
        · intro h; exact Option.noConfusion h
        · rintro ⟨h1, h2⟩; exact absurd he.symm h1
      · rw [if_neg he]
        constructor
        · intro h; exact ⟨fun hx => he hx.symm, ih.mp hl⟩
        · intro h; rfl

theorem coh_dictInsert (v : EventRecord) (d : List (String × EventRecord))
    (hco : ∀ p ∈ d, (p.2).comment_id = p.1) :
    ∀ p ∈ dictInsert v.comment_id v d, (p.2).comment_id = p.1 := by
  induction d with
  | nil =>
    intro p hp
    simp [dictInsert] at hp
    simp [hp]
  | cons q rest ih =>
    intro p hp
    by_cases hq : q.1 = v.comment_id
    · simp only [dictInsert, if_pos hq] at hp
      rcases List.mem_cons.mp hp with h | h
      · simp [h, hq]
      · exact hco p (List.mem_cons_of_mem q h)
    · simp only [dictInsert, if_neg hq] at hp
      rcases List.mem_cons.mp hp with h | h
      · exact h ▸ hco q (List.mem_cons_self q rest)
      · exact ih (fun r hr => hco r (List.mem_cons_of_mem q hr)) p h

theorem coh_eventDict :
    ∀ (l : List EventRecord) (d : List (String × EventRecord)),
      (∀ p ∈ d, (p.2).comment_id = p.1) →
      ∀ p ∈ eventDict l d, (p.2).comment_id = p.1 := by
  intro l
  induction l with
  | nil => intro d h; exact h
  | cons e l ih =>
    intro d h
    rw [eventDict_cons]
    exact ih _ (coh_dictInsert e d h)

theorem nodup_keys_eventDict :
    ∀ (l : List EventRecord) (d : List (String × EventRecord)),
      (d.map (fun p => p.1)).Nodup →
      ((eventDict l d).map (fun p => p.1)).Nodup := by
  intro l
  induction l with
  | nil => intro d h; exact h
  | cons e l ih =>
    intro d h
    rw [eventDict_cons]
    exact ih _ (nodup_keys_dictInsert _ _ _ h)

theorem countP_values (k : String) :
    ∀ d : List (String × EventRecord),
      ((d.map (fun p => p.1)).Nodup) →
      (∀ p ∈ d, (p.2).comment_id = p.1) →
      (d.map (fun p => p.2)).countP (fun r => r.comment_id == k) =
        if (dlookup k d).isSome then 1 else 0 := by
  intro d
  induction d with
  | nil => simp [dlookup]
  | cons p rest ih =>
    intro hn hco
    have hn' : (rest.map (fun p => p.1)).Nodup := (List.nodup_cons.mp hn).2
    have hnm : p.1 ∉ rest.map (fun p => p.1) := (List.nodup_cons.mp hn).1
    have hco' : ∀ q ∈ rest, (q.2).comment_id = q.1 :=
      fun q hq => hco q (List.mem_cons_of_mem p hq)
    have hcp : (p.2).comment_id = p.1 := hco p (List.mem_cons_self p rest)
    by_cases hp : p.1 = k
    · have hzero : (rest.map (fun q => q.2)).countP (fun r => r.comment_id == k) = 0 := by
        rw [List.countP_eq_zero]
        intro r hr
        rcases List.mem_map.mp hr with ⟨q, hq, hrq⟩
        have hcq : (q.2).comment_id = q.1 := hco' q hq
        have hq1 : q.1 ≠ k := by
          intro he
          apply hnm
          have hqm : q.1 ∈ rest.map (fun p => p.1) := List.mem_map.mpr ⟨q, hq, rfl⟩
          rw [hp, ← he]
          exact hqm
        simp [← hrq, hcq, hq1]
      have hpred : ((p.2).comment_id == k) = true := by
        simp [hcp, hp]
      simp [List.countP_cons, hzero, hpred, dlookup, hp]
    · have hpred : ((p.2).comment_id == k) = false := by
        simp [hcp, hp]
      simp [List.countP_cons, hpred, dlookup, hp, ih hn' hco']

theorem length_dictInsert (k : String) (v : EventRecord) :
    ∀ d, (dictInsert k v d).length =
      if k ∈ d.map (fun p => p.1) then d.length else d.length + 1 := by
  intro d
  induction d with
  | nil => simp [dictInsert]
  | cons p rest ih =>
    by_cases hp : p.1 = k
    · have hm : k ∈ (p :: rest).map (fun p => p.1) := by simp [hp.symm]
      simp [dictInsert, hp, hm]
    · have hne : k ≠ p.1 := fun he => hp he.symm
      by_cases hk : k ∈ rest.map (fun p => p.1)
      · have hm : k ∈ (p :: rest).map (fun p => p.1) := by simp [hk]
        simp [dictInsert, hp, ih, hk, hm]
      · have hm : k ∉ (p :: rest).map (fun p => p.1) := by simp [hne, hk]
        simp [dictInsert, hp, ih, hk, hm, hne]

theorem eventDict_keys_subset :
    ∀ (l : List EventRecord) (d : List (String × EventRecord)),
      (∀ e ∈ l, e.comment_id ∈ d.map (fun p => p.1)) →
      (eventDict l d).map (fun p => p.1) = d.map (fun p => p.1) ∧
        (eventDict l d).length = d.length := by
  intro l
  induction l with
  | nil => intro d _; exact ⟨rfl, rfl⟩
  | cons e l ih =>
    intro d h
    have he : e.comment_id ∈ d.map (fun p => p.1) := h e (List.mem_cons_self e l)
    have hkeys : (dictInsert e.comment_id e d).map (fun p => p.1) =
        d.map (fun p => p.1) := by
      rw [dkeys_dictInsert, if_pos he]
    have hlen : (dictInsert e.comment_id e d).length = d.length := by
      rw [length_dictInsert, if_pos he]
    rw [eventDict_cons]
    have h2 : ∀ x ∈ l, x.comment_id ∈
        (dictInsert e.comment_id e d).map (fun p => p.1) := by
      intro x hx
      rw [hkeys]
      exact h x (List.mem_cons_of_mem e hx)
    rcases ih _ h2 with ⟨h3, h4⟩
    exact ⟨h3.trans hkeys, h4.trans hlen⟩

theorem eventDict_keys_fresh :
    ∀ (l : List EventRecord) (d : List (String × EventRecord)),
      (l.map (fun e => e.comment_id)).Nodup →
      (∀ e ∈ l, e.comment_id ∉ d.map (fun p => p.1)) →
      (eventDict l d).map (fun p => p.1) =
          d.map (fun p => p.1) ++ l.map (fun e => e.comment_id) ∧
        (eventDict l d).length = d.length + l.length := by
  intro l
  induction l with
  | nil => intro d _ _; simp [eventDict]
  | cons e l ih =>
    intro d hnd h
    rw [List.map_cons, List.nodup_cons] at hnd
    have hmem : e.comment_id ∉ d.map (fun p => p.1) := h e (List.mem_cons_self e l)
    have hkeys : (dictInsert e.comment_id e d).map (fun p => p.1) =
        d.map (fun p => p.1) ++ [e.comment_id] := by
      rw [dkeys_dictInsert, if_neg hmem]
    have hlen : (dictInsert e.comment_id e d).length = d.length + 1 := by
      rw [length_dictInsert, if_neg hmem]
    have h2 : ∀ x ∈ l, x.comment_id ∉
        (dictInsert e.comment_id e d).map (fun p => p.1) := by
      intro x hx
      rw [hkeys]
      intro hm
      rcases List.mem_append.mp hm with hm1 | hm1
      · exact h x (List.mem_cons_of_mem e hx) hm1
      · have : x.comment_id = e.comment_id := by simpa using hm1
        exact hnd.1 (this ▸ List.mem_map.mpr ⟨x, hx, rfl⟩)
    rw [eventDict_cons]
    rcases ih _ hnd.2 h2 with ⟨h3, h4⟩
    constructor
    · rw [h3, hkeys, List.append_assoc]
      simp
    · rw [h4, hlen]
      simp only [List.length_cons]
      omega

/-- Claim C1: `merge_events(existing, incoming)` returns exactly the values
of the comment_id-keyed mapping seeded with the existing records and then
overwritten by each incoming record in order (last-write-wins), so every
comment_id present in either input has exactly one output record, and an id
occurring in the incoming list keeps the last incoming record's fields. -/
theorem claim_c1_merge_dedup (ex inc : List EventRecord) (idv : String) :
    ((merge_events ex inc).countP (fun r => r.comment_id == idv) =
      if idv ∈ (ex ++ inc).map (fun e => e.comment_id) then 1 else 0)
    ∧ (∀ r, lastWith idv inc = some r → r ∈ merge_events ex inc) := by
  have hperm : (merge_events ex inc).Perm
      ((eventDict inc (eventDict ex [])).map (fun p => p.2)) := by
    unfold merge_events
    exact List.perm_insertionSort _ _
  have hnod : ((eventDict inc (eventDict ex [])).map (fun p => p.1)).Nodup := by
    apply nodup_keys_eventDict
    apply nodup_keys_eventDict
    simp
  have hcoh : ∀ p ∈ eventDict inc (eventDict ex []), (p.2).comment_id = p.1 := by
    apply coh_eventDict
    apply coh_eventDict
    intro p hp
    simp at hp
  have hiff : ((dlookup idv (eventDict inc (eventDict ex []))).isSome = true) ↔
      idv ∈ (ex ++ inc).map (fun e => e.comment_id) := by
    rw [dlookup_eventDict]
    cases hinc : lastWith idv inc with
    | some r =>
      have hm : idv ∈ inc.map (fun e => e.comment_id) := by
        by_contra h
        rw [← lastWith_eq_none] at h
        rw [h] at hinc
        exact Option.noConfusion hinc
      simp [List.map_append, List.mem_append, hm]
    | none =>
      have hninc : idv ∉ inc.map (fun e => e.comment_id) :=
        (lastWith_eq_none idv inc).mp hinc
      rw [dlookup_eventDict]
      cases hex : lastWith idv ex with
      | some r =>
        have hm : idv ∈ ex.map (fun e => e.comment_id) := by
          by_contra h
          rw [← lastWith_eq_none] at h
          rw [h] at hex
          exact Option.noConfusion hex
        simp [List.map_append, List.mem_append, hm]
      | none =>
        have hnex : idv ∉ ex.map (fun e => e.comment_id) :=
          (lastWith_eq_none idv ex).mp hex
        simp [dlookup, List.map_append, List.mem_append, hninc, hnex]
  constructor
  · rw [hperm.countP_eq]
    rw [countP_values idv _ hnod hcoh]
    by_cases hm : idv ∈ (ex ++ inc).map (fun e => e.comment_id)
    · rw [if_pos hm, if_pos (hiff.mpr hm)]
    · rw [if_neg hm, if_neg (fun h => hm (hiff.mp h))]
  · intro r hr
    have hDl : dlookup idv (eventDict inc (eventDict ex [])) = some r := by
      rw [dlookup_eventDict, hr]
    exact hperm.mem_iff.mpr (dlookup_mem idv _ r hDl)

def c1recOld : EventRecord :=
  { comment_id := ("a"), text := ("old text"), author := ("au"),
    published_at := ("p"), extracted_at := some ("2023-01-01T00:00:00Z") }

def c1recNew : EventRecord :=
  { comment_id := ("a"), text := ("new text"), author := ("au2"),
    published_at := ("p2"), extracted_at := some ("2024-01-01T00:00:00Z") }

theorem claim_c1_witness :
    ((merge_events [c1recOld] [c1recNew]).countP
        (fun r => r.comment_id == ("a")) = 1)
    ∧ c1recNew ∈ merge_events [c1recOld] [c1recNew] := by
  constructor
  · have h := (claim_c1_merge_dedup [c1recOld] [c1recNew] ("a")).1
    rw [if_pos (by decide)] at h
    exact h
  · exact (claim_c1_merge_dedup [c1recOld] [c1recNew] ("a")).2 c1recNew (by decide)

/-- Claim C2 (amended): the merge output is sorted by `extracted_at`
descending under lexicographic comparison — two records with distinct
`extracted_at` strings appear in strictly descending key order — and a
record missing `extracted_at` (key `''`) appears after every record whose
`extracted_at` is a nonempty string.  (The unamended claim also placed
missing-field records after records carrying an empty-string
`extracted_at`; the stable sort keeps such equal-key records in input
order, see the counterexample.) -/
theorem claim_c2_merge_order (ex inc : List EventRecord) :
    (∀ (i j : Fin (merge_events ex inc).length) (sa sb : String),
        ((merge_events ex inc).get i).extracted_at = some sa →
        ((merge_events ex inc).get j).extracted_at = some sb →
        sa ≠ sb →
        ((i : ℕ) < (j : ℕ) ↔ strLexLt sb.data sa.data = true))
    ∧ (∀ (i j : Fin (merge_events ex inc).length) (s : String),
        ((merge_events ex inc).get i).extracted_at = none →
        ((merge_events ex inc).get j).extracted_at = some s →
        s.data ≠ [] →
        (j : ℕ) < (i : ℕ)) := by
  have hsort : List.Sorted (keyDesc mergeSortKey) (merge_events ex inc) := by
    unfold merge_events
    exact List.sorted_insertionSort _ _
  constructor
  · intro i j sa sb ha hb hne
    rw [List.get_eq_getElem] at ha hb
    constructor
    · intro hij
      have hr := hsort.rel_get_of_lt (a := i) (b := j) (Fin.lt_def.mpr hij)
      rcases hr with h | h
      · simpa [keyDesc, mergeSortKey, ha, hb] using h
      · exact absurd (string_data_inj (by simpa [mergeSortKey, ha, hb] using h)) hne
    · intro hlt
      rcases Nat.lt_trichotomy (i : ℕ) (j : ℕ) with h | h | h
      · exact h
      · exfalso
        have hij : i = j := Fin.ext h
        rw [hij] at ha
        exact hne (Option.some_inj.mp (ha.symm.trans hb))
      · exfalso
        have hr := hsort.rel_get_of_lt (a := j) (b := i) (Fin.lt_def.mpr h)
        rcases hr with h2 | h2
        · have h3 : strLexLt sa.data sb.data = true := by
            simpa [keyDesc, mergeSortKey, ha, hb] using h2
          have h4 := strLexLt_asymm hlt
          rw [h4] at h3
          exact Bool.noConfusion h3
        · have h3 : sb.data = sa.data := by
            simpa [mergeSortKey, ha, hb] using h2
          exact hne (string_data_inj h3).symm
  · intro i j s hnone hsome hs
    rw [List.get_eq_getElem] at hnone hsome
    rcases Nat.lt_trichotomy (j : ℕ) (i : ℕ) with h | h | h
    · exact h
    · exfalso
      have hij : j = i := Fin.ext h
      rw [hij] at hsome
      exact Option.noConfusion (hnone.symm.trans hsome)
    · exfalso
      have hr := hsort.rel_get_of_lt (a := i) (b := j) (Fin.lt_def.mpr h)
      rcases hr with h2 | h2
      · have h3 : strLexLt s.data [] = true := by
          simpa [keyDesc, mergeSortKey, hnone, hsome] using h2
        rw [strLexLt_nil_right] at h3
        exact Bool.noConfusion h3
      · have h3 : ([] : List Char) = s.data := by
          simpa [mergeSortKey, hnone, hsome] using h2
        exact hs h3.symm

def c2recMissing : EventRecord :=
  { comment_id := ("m"), text := ("t"), author := ("a"),
    published_at := ("p"), extracted_at := none }

def c2recEmpty : EventRecord :=
  { comment_id := ("e"), text := ("t"), author := ("a"),
    published_at := ("p"), extracted_at := some ("") }

def c2recDated : EventRecord :=
  { comment_id := ("d"), text := ("t"), author := ("a"),
    published_at := ("p"), extracted_at := some ("2024-01-01T00:00:00Z") }

def c2recOlder : EventRecord :=
  { comment_id := ("o"), text := ("t"), author := ("a"),
    published_at := ("p"), extracted_at := some ("2023-01-01T00:00:00Z") }

/-- Claim C2 counterexample: merging a record that lacks `extracted_at`
ahead of a record whose `extracted_at` is the empty string keeps the
missing-field record first (equal sort keys, stable order), so a
missing-field record does not appear after every record that has the
field. -/
theorem claim_c2_counterexample :
    ¬ (∀ (i j : Fin (merge_events [] [c2recMissing, c2recEmpty]).length),
        ((merge_events [] [c2recMissing, c2recEmpty]).get i).extracted_at = none →
        ((merge_events [] [c2recMissing, c2recEmpty]).get j).extracted_at ≠ none →
        (j : ℕ) < (i : ℕ)) := by
  decide

theorem claim_c2_witness :
    (((0 : ℕ) < (1 : ℕ)) ↔
      strLexLt ("2023-01-01T00:00:00Z").data ("2024-01-01T00:00:00Z").data = true)
    ∧ ((0 : ℕ) < (1 : ℕ)) := by
  constructor
  · exact (claim_c2_merge_order [] [c2recOlder, c2recDated]).1
      ⟨0, by decide⟩ ⟨1, by decide⟩
      ("2024-01-01T00:00:00Z") ("2023-01-01T00:00:00Z")
      (by decide) (by decide) (by decide)
  · exact (claim_c2_merge_order [] [c2recMissing, c2recDated]).2
      ⟨1, by decide⟩ ⟨0, by decide⟩ ("2024-01-01T00:00:00Z")
      (by decide) (by decide) (by decide)

/-- Claim C3: a comment whose text matches the URL-like pattern, or whose
stripped length is under 5 or over 500 characters, is classified spam and
yields no EventRecord, regardless of keyword or date content. -/
theorem claim_c3_spam_reject (nowIso : String) (c : Comment)
    (h : url_pattern_search c.text.data = true ∨
      (pyStrip c.text.data).length < 5 ∨ 500 < (pyStrip c.text.data).length) :
    extract_event_info nowIso c = none := by
  have hspam : is_spam c.text = true := by
    unfold is_spam
    rcases h with h | h | h
    · simp [h]
    · simp [h]
    · simp [h]
  unfold extract_event_info
  simp [hspam]

def c3text3 : String := ("明日時")

def c3comment3 : Comment :=
  { comment_id := ("c3a"), text := c3text3, author := ("a"),
    published_at := ("p") }

def c3text600 : String := String.mk (List.replicate 600 ('x'))

def c3comment600 : Comment :=
  { comment_id := ("c3b"), text := c3text600, author := ("a"),
    published_at := ("p") }

set_option maxRecDepth 40000 in
theorem claim_c3_witness :
    (extract_event_info ("2024-01-01T00:00:00") c3comment3 = none
      ∧ contains_future_date c3text3 = true
      ∧ contains_event_keyword c3text3 = true)
    ∧ extract_event_info ("2024-01-01T00:00:00") c3comment600 = none := by
  refine ⟨⟨?_, by decide, by decide⟩, ?_⟩
  · exact claim_c3_spam_reject _ c3comment3 (Or.inr (Or.inl (by decide)))
  · exact claim_c3_spam_reject _ c3comment600 (Or.inr (Or.inr (by decide)))

def c4text : String := ("イベントがあります")

def c4comment : Comment :=
  { comment_id := ("c4"), text := c4text, author := ("a"),
    published_at := ("p") }

/-- Claim C4 counterexample: a non-spam comment matching no date/time
pattern is rejected by `extract_event_info` even though it contains event
vocabulary, so the extraction does not proceed past the future-date check
when no pattern matches. -/
theorem claim_c4_counterexample :
    is_spam c4text = false ∧ contains_future_date c4text = false ∧
      contains_event_keyword c4text = true ∧
      extract_event_info ("2024-01-01T00:00:00") c4comment = none := by
  decide

/-- Claim C4 (amended): the future-date check is mandatory — a non-spam
comment whose text matches none of the date/time patterns yields no
EventRecord, regardless of event-vocabulary content. -/
theorem claim_c4_date_required (nowIso : String) (c : Comment)
    (hs : is_spam c.text = false) (hd : contains_future_date c.text = false) :
    extract_event_info nowIso c = none := by
  unfold extract_event_info
  simp [hs, hd]

theorem claim_c4_witness :
    extract_event_info ("2024-01-01T00:00:00") c4comment = none :=
  claim_c4_date_required ("2024-01-01T00:00:00") c4comment (by decide) (by decide)

/-- Claim C5: a comment passing all three checks yields an EventRecord that
echoes the comment's comment_id, text, author and published_at, with
`extracted_at` set to the current UTC ISO-8601 time plus a literal Z. -/
theorem claim_c5_acceptance (nowIso : String) (c : Comment)
    (hs : is_spam c.text = false) (hd : contains_future_date c.text = true)
    (hk : contains_event_keyword c.text = true) :
    extract_event_info nowIso c =
      some { comment_id := c.comment_id, text := c.text, author := c.author,
             published_at := c.published_at,
             extracted_at := some (nowIso ++ ("Z")) } := by
  unfold extract_event_info
  simp [hs, hd, hk]

def c5text : String := ("来週の土曜日に新宿でオフ会を開催します")

def c5comment : Comment :=
  { comment_id := ("c5"), text := c5text, author := ("a5"),
    published_at := ("p5") }

theorem claim_c5_witness :
    extract_event_info ("2024-01-01T00:00:00") c5comment =
      some { comment_id := ("c5"), text := c5text, author := ("a5"),
             published_at := ("p5"),
             extracted_at := some (("2024-01-01T00:00:00") ++ ("Z")) } :=
  claim_c5_acceptance ("2024-01-01T00:00:00") c5comment (by decide) (by decide)
    (by decide)

/-- Claim C6: the keyword-search filter retains a candidate iff its
statistics are available, its comment_count is at least the minimum
(boundary inclusive), and its publish time parses to an age of at most
`days_old_max` days; survivors are sorted by descending comment_count with
ties broken by ascending days_old, and the result is the first `max_videos`
ids of that order. -/
theorem claim_c6_keyword_filter (stats : String → Option VideoStat)
    (daysOld : String → Option Int) (candidates : List String)
    (max_videos min_comment_count : Nat) (days_old_max : Int) :
    (∀ v : String,
        (v ∈ (filter_candidates stats daysOld candidates min_comment_count
          days_old_max).map (fun f => f.video_id)) ↔
        (v ∈ candidates ∧ ∃ s, stats v = some s ∧
          min_comment_count ≤ s.comment_count ∧
          ∃ d, daysOld s.published_at = some d ∧ d ≤ days_old_max))
    ∧ List.Sorted videoRank (List.insertionSort videoRank
        (filter_candidates stats daysOld candidates min_comment_count
          days_old_max))
    ∧ search_videos_by_keyword stats daysOld candidates max_videos
        min_comment_count days_old_max =
      ((List.insertionSort videoRank (filter_candidates stats daysOld candidates
          min_comment_count days_old_max)).map (fun f => f.video_id)).take
        max_videos := by
  refine ⟨?_, List.sorted_insertionSort _ _, ?_⟩
  · intro v
    constructor
    · intro hv
      rcases List.mem_map.mp hv with ⟨f, hf, hfv⟩
      rcases List.mem_filterMap.mp hf with ⟨cand, hcand, hres⟩
      cases hstats : stats cand with
      | none => rw [hstats] at hres; exact Option.noConfusion hres
      | some s =>
        rw [hstats] at hres
        simp only at hres
        by_cases hcc : s.comment_count < min_comment_count
        · rw [if_pos hcc] at hres; exact Option.noConfusion hres
        · rw [if_neg hcc] at hres
          cases hdays : daysOld s.published_at with
          | none => rw [hdays] at hres; exact Option.noConfusion hres
          | some d =>
            rw [hdays] at hres
            simp only at hres
            by_cases hd : days_old_max < d
            · rw [if_pos hd] at hres; exact Option.noConfusion hres
            · rw [if_neg hd] at hres
              obtain rfl := Option.some_inj.mp hres
              subst hfv
              exact ⟨hcand, s, hstats, Nat.not_lt.mp hcc, d, hdays,
                Int.not_lt.mp hd⟩
    · rintro ⟨hvc, s, hs, hcc, d, hd, hdm⟩
      apply List.mem_map.mpr
      refine ⟨{ video_id := v, comment_count := s.comment_count,
                days_old := d, published_at := s.published_at }, ?_, rfl⟩
      apply List.mem_filterMap.mpr
      refine ⟨v, hvc, ?_⟩
      show (match stats v with
        | none => none
        | some s =>
          if s.comment_count < min_comment_count then none
          else
            match daysOld s.published_at with
            | none => none
            | some d =>
              if days_old_max < d then none
              else some ({ video_id := v, comment_count := s.comment_count,
                           days_old := d,
                           published_at := s.published_at } : FilteredVideo)) =
        some ({ video_id := v, comment_count := s.comment_count,
                days_old := d, published_at := s.published_at } : FilteredVideo)
      rw [hs]
      simp only
      rw [if_neg (Nat.not_lt.mpr hcc), hd]
      simp only
      rw [if_neg (Int.not_lt.mpr hdm)]
  · unfold search_videos_by_keyword
    rw [List.map_take]

def c6stats : String → Option VideoStat := fun v =>
  if v = ("v1") then some { comment_count := 9, published_at := ("p") }
  else if v = ("v2") then some { comment_count := 10, published_at := ("p") }
  else none

def c6days : String → Option Int := fun _ => some 0

theorem claim_c6_witness :
    (("v1") ∉ (filter_candidates c6stats c6days [("v1"), ("v2")] 10 7).map
      (fun f => f.video_id))
    ∧ (("v2") ∈ (filter_candidates c6stats c6days [("v1"), ("v2")] 10 7).map
      (fun f => f.video_id)) := by
  constructor
  · intro h
    have h2 := ((claim_c6_keyword_filter c6stats c6days [("v1"), ("v2")]
      5 10 7).1 ("v1")).mp h
    rcases h2 with ⟨hm, s, hs, hcc, hrest⟩
    have hseq : ({ comment_count := 9, published_at := ("p") } : VideoStat) = s := by
      have hv : c6stats ("v1") = some { comment_count := 9, published_at := ("p") } := rfl
      exact Option.some_inj.mp (hv.symm.trans hs)
    rw [← hseq] at hcc
    exact absurd hcc (by decide)
  · exact ((claim_c6_keyword_filter c6stats c6days [("v1"), ("v2")]
      5 10 7).1 ("v2")).mpr
      ⟨by decide, { comment_count := 10, published_at := ("p") }, rfl,
        by decide, 0, rfl, by decide⟩

theorem fetchLoop_take (get : String → Nat → List Comment) (per m : Nat) :
    ∀ (ids : List String) (acc : List Comment),
      (fetchLoop get per m ids acc).take m =
        (acc ++ (ids.map (fun v => get v per)).flatten).take m := by
  intro ids
  induction ids with
  | nil => intro acc; simp [fetchLoop]
  | cons vid rest ih =>
    intro acc
    simp only [fetchLoop]
    by_cases hm : m ≤ (acc ++ get vid per).length
    · rw [if_pos hm, List.map_cons, List.flatten_cons, ← List.append_assoc,
        List.take_append_of_le_length hm]
    · rw [if_neg hm, ih, List.map_cons, List.flatten_cons, ← List.append_assoc]

/-- Claim C7: over a nonempty selection of N video ids, the aggregation
requests `max_results / N + 1` comments per video, concatenates the fetched
lists in order, and truncates to at most `max_results` comments (the loop's
early stop once the running total reaches the budget does not change the
truncated result); an empty selection returns empty before the division. -/
theorem claim_c7_aggregation (get : String → Nat → List Comment)
    (video_ids : List String) (max_results : Nat) :
    (video_ids = [] → fetch_comments_for_videos get video_ids max_results = [])
    ∧ (video_ids ≠ [] →
        fetch_comments_for_videos get video_ids max_results =
          ((video_ids.map (fun v =>
            get v (max_results / video_ids.length + 1))).flatten).take
            max_results)
    ∧ (fetch_comments_for_videos get video_ids max_results).length ≤
        max_results := by
  refine ⟨?_, ?_, ?_⟩
  · intro h; subst h; rfl
  · intro h
    unfold fetch_comments_for_videos
    rw [if_neg (fun hc => h (List.isEmpty_iff.mp hc))]
    have h2 := fetchLoop_take get (max_results / video_ids.length + 1)
      max_results video_ids []
    simpa using h2
  · unfold fetch_comments_for_videos
    by_cases h : video_ids.isEmpty
    · rw [if_pos h]; simp
    · rw [if_neg h, List.length_take]
      exact min_le_left _ _

def c7get (v : String) (n : Nat) : List Comment :=
  List.replicate n
    { comment_id := v, text := ("t"), author := ("a"), published_at := ("p") }

theorem claim_c7_witness :
    fetch_comments_for_videos c7get [("x"), ("y"), ("z")] 10 =
      (([("x"), ("y"), ("z")] : List String).map (fun v =>
        c7get v (10 / ([("x"), ("y"), ("z")] : List String).length + 1))).flatten.take 10
    ∧ (fetch_comments_for_videos c7get [("x"), ("y"), ("z")] 10).length ≤ 10 :=
  ⟨(claim_c7_aggregation c7get [("x"), ("y"), ("z")] 10).2.1 (by decide),
   (claim_c7_aggregation c7get [("x"), ("y"), ("z")] 10).2.2⟩

/-- Claim C8 counterexample: handed both a category id and a search keyword
directly, `fetch_comments` takes the keyword branch, not the category
branch. -/
theorem claim_c8_counterexample :
    fetch_comments_branch none none (some ("10")) (some ("副業")) =
      FetchBranch.keyword
    ∧ FetchBranch.keyword ≠ FetchBranch.category := by
  decide

/-- Claim C8 (amended): `fetch_comments` itself tests video id, channel id,
search keyword, then category id — so a keyword outranks a category id at
that level — while `main` passes the keyword only when no video, channel,
or category id is configured, so for arguments flowing through `main` the
branch taken is the highest-precedence configured option in the order video
id > channel id > category id > keyword. -/
theorem claim_c8_precedence (v c cat : Option String) (kw : String)
    (hkw : kw ≠ ("")) :
    (main_branch v c cat kw =
      if truthy v then FetchBranch.video
      else if truthy c then FetchBranch.channel
      else if truthy cat then FetchBranch.category
      else FetchBranch.keyword)
    ∧ (truthy v = false → truthy c = false → truthy cat = true →
        ∀ kw2 : Option String, truthy kw2 = true →
          fetch_comments_branch v c cat kw2 = FetchBranch.keyword) := by
  constructor
  · have ht : truthy (some kw) = true := by simp [truthy, hkw]
    have htn : truthy none = false := rfl
    cases hv : truthy v <;> cases hc : truthy c <;> cases hcat : truthy cat <;>
      simp [main_branch, main_keyword_arg, fetch_comments_branch, hv, hc,
        hcat, ht, htn]
  · intro hv hc hcat kw2 hkw2
    unfold fetch_comments_branch
    simp [hv, hc, hkw2]

theorem claim_c8_witness :
    main_branch none none (some ("10")) ("副業") = FetchBranch.category
    ∧ fetch_comments_branch none none (some ("10")) (some ("副業")) =
        FetchBranch.keyword := by
  constructor
  · have h := (claim_c8_precedence none none (some ("10")) ("副業")
      (by decide)).1
    simpa using h
  · exact (claim_c8_precedence none none (some ("10")) ("副業")
      (by decide)).2 rfl rfl (by decide) (some ("副業")) (by decide)

/- JSON-level merge lemmas. -/

theorem jdictInsert_ne_nil (k : JKey) (v : JValue) :
    ∀ d, jdictInsert k v d ≠ [] := by
  intro d
  cases d with
  | nil => simp [jdictInsert]
  | cons p rest =>
    by_cases hp : p.1 = k
    · simp [jdictInsert, hp]
    · simp [jdictInsert, hp]

theorem getCommentId_eventToJson (e : EventRecord) :
    getCommentId (eventToJson e) = some (JValue.jstr e.comment_id) := rfl

theorem jextractedKey_eventToJson (e : EventRecord) :
    jextractedKey (eventToJson e) = some (e.extracted_at.getD ("")) := by
  rfl

theorem jdictInsert_inv (k : JKey) (v : JValue)
    (hv : (jextractedKey v).isSome = true) :
    ∀ d, (∀ p ∈ d, (jextractedKey p.2).isSome = true) →
      ∀ p ∈ jdictInsert k v d, (jextractedKey p.2).isSome = true := by
  intro d
  induction d with
  | nil =>
    intro _ p hp
    simp [jdictInsert] at hp
    rw [hp]
    exact hv
  | cons q rest ih =>
    intro hd p hp
    by_cases hq : q.1 = k
    · simp only [jdictInsert, if_pos hq] at hp
      rcases List.mem_cons.mp hp with h | h
      · rw [h]
        exact hv
      · exact hd p (List.mem_cons_of_mem q h)
    · simp only [jdictInsert, if_neg hq] at hp
      rcases List.mem_cons.mp hp with h | h
      · exact h ▸ hd q (List.mem_cons_self q rest)
      · exact ih (fun r hr => hd r (List.mem_cons_of_mem q hr)) p h

theorem buildJDict_events (es : List EventRecord) :
    ∀ d, (∀ p ∈ d, (jextractedKey p.2).isSome = true) →
      ∃ d2, buildJDict (es.map eventToJson) d = some d2 ∧
        (∀ p ∈ d2, (jextractedKey p.2).isSome = true) ∧
        ((d ≠ [] ∨ es ≠ []) → d2 ≠ []) := by
  induction es with
  | nil =>
    intro d hd
    refine ⟨d, rfl, hd, ?_⟩
    rintro (h | h)
    · exact h
    · exact absurd rfl h
  | cons e rest ih =>
    intro d hd
    have hv : (jextractedKey (eventToJson e)).isSome = true := by
      rw [jextractedKey_eventToJson]
      rfl
    have hstep : buildJDict ((e :: rest).map eventToJson) d =
        buildJDict (rest.map eventToJson)
          (jdictInsert (JKey.kstr e.comment_id) (eventToJson e) d) := by
      rw [List.map_cons]
      rfl
    obtain ⟨d2, h1, h2, h3⟩ := ih
      (jdictInsert (JKey.kstr e.comment_id) (eventToJson e) d)
      (jdictInsert_inv _ _ hv d hd)
    refine ⟨d2, hstep.trans h1, h2, ?_⟩
    intro _
    exact h3 (Or.inl (jdictInsert_ne_nil _ _ d))

theorem merge_events_json_fresh (es : List EventRecord) (hne : es ≠ []) :
    ∃ merged, merge_events_json [] (es.map eventToJson) = some merged ∧
      merged ≠ [] := by
  obtain ⟨d2, h1, h2, h3⟩ := buildJDict_events es [] (by simp)
  have hd2 : d2 ≠ [] := h3 (Or.inr hne)
  have hall : (d2.map (fun p => p.2)).all
      (fun v => (jextractedKey v).isSome) = true := by
    rw [List.all_eq_true]
    intro v hv
    rcases List.mem_map.mp hv with ⟨p, hp, hpv⟩
    rw [← hpv]
    exact h2 p hp
  refine ⟨List.insertionSort (keyDesc jSortKey) (d2.map (fun p => p.2)), ?_, ?_⟩
  · unfold merge_events_json
    have hbase : buildJDict ([] : List JValue) [] =
        some ([] : List (JKey × JValue)) := rfl
    rw [hbase]
    dsimp only
    rw [h1]
    dsimp only
    rw [if_pos hall]
  · intro hnil
    have hlen := (List.perm_insertionSort (keyDesc jSortKey)
      (d2.map (fun p => p.2))).length_eq
    rw [hnil] at hlen
    simp only [List.length_nil, List.length_map] at hlen
    exact hd2 (List.length_eq_zero.mp hlen.symm)

theorem mainRun_empty_store (key : Option String) (store : StoreFile)
    (comments : List Comment) (nowIso : String)
    (hk : truthy key = true) (hl : load_existing_events store = []) :
    (mainRun key store comments nowIso true).1 = 0 := by
  unfold mainRun
  rw [hk, hl]
  simp only [Bool.not_true, Bool.false_eq_true, if_false]
  by_cases hc : comments.isEmpty
  · simp [hc]
  · simp only [hc, Bool.false_eq_true, if_false]
    by_cases hn : (analyze_comments nowIso comments).isEmpty
    · simp [hn]
    · simp only [hn, Bool.false_eq_true, if_false]
      have hne : analyze_comments nowIso comments ≠ [] := by
        intro h
        rw [h] at hn
        exact hn rfl
      obtain ⟨merged, hm, hmn⟩ := merge_events_json_fresh _ hne
      rw [hm]
      dsimp only
      split <;> rfl

/-- Claim C9 counterexample: a store holding the JSON array `[42]` loads
as-is, but `merge_events` then evaluates `42['comment_id']`, the raised
exception reaches the top-level handler, and the process exits with status
1 — so a list of arbitrary values is not "never fatal". -/
theorem claim_c9_counterexample :
    mainRun (some ("key"))
      (StoreFile.wellFormed (JValue.jarr [JValue.jnum 42]))
      [c5comment] ("2024-01-01T00:00:00") true = (1, none) := by
  rfl

/-- Claim C9 (amended): a missing store file, unparsable content, and
parsable non-list content all load as the empty collection and are never
fatal (with a valid key and a working save, the run exits 0 whatever else
the pipeline does); a JSON array is returned as-is — but its elements are
then fed to the merge step unchecked, so a list of non-record values can
abort the run (see the counterexample). -/
theorem claim_c9_store_resilience :
    (load_existing_events StoreFile.absent = [])
    ∧ (load_existing_events StoreFile.malformed = [])
    ∧ (∀ j : JValue, (∀ xs, j ≠ JValue.jarr xs) →
        load_existing_events (StoreFile.wellFormed j) = [])
    ∧ (∀ xs, load_existing_events (StoreFile.wellFormed (JValue.jarr xs)) = xs)
    ∧ (∀ (key : Option String) (store : StoreFile) (comments : List Comment)
        (nowIso : String), truthy key = true →
        load_existing_events store = [] →
        (mainRun key store comments nowIso true).1 = 0) := by
  refine ⟨rfl, rfl, ?_, fun xs => rfl, ?_⟩
  · intro j hj
    cases j with
    | null => rfl
    | jbool b => rfl
    | jnum n => rfl
    | jstr s => rfl
    | jarr xs => exact absurd rfl (hj xs)
    | jobj kvs => rfl
  · intro key store comments nowIso hk hl
    exact mainRun_empty_store key store comments nowIso hk hl

theorem claim_c9_witness :
    (mainRun (some ("key")) StoreFile.absent [c5comment]
      ("2024-01-01T00:00:00") true).1 = 0 :=
  claim_c9_store_resilience.2.2.2.2 (some ("key")) StoreFile.absent
    [c5comment] ("2024-01-01T00:00:00") (by decide) rfl

/-- Claim C10: when the merged collection has the same length as the loaded
collection, `main` exits 0 without saving, leaving the store file untouched
and discarding the incoming last-write-wins replacements; and the lengths
do coincide whenever every incoming comment_id is already present in the
store, provided the stored collection satisfies its documented invariant of
one record per comment_id. -/
theorem claim_c10_no_save_when_no_new :
    (∀ (key : Option String) (store : StoreFile) (comments : List Comment)
        (nowIso : String) (saveOk : Bool) (merged : List JValue),
        truthy key = true →
        comments.isEmpty = false →
        (analyze_comments nowIso comments).isEmpty = false →
        merge_events_json (load_existing_events store)
          ((analyze_comments nowIso comments).map eventToJson) = some merged →
        merged.length = (load_existing_events store).length →
        mainRun key store comments nowIso saveOk = (0, none))
    ∧ (∀ existing_events new_events : List EventRecord,
        (existing_events.map (fun e => e.comment_id)).Nodup →
        (∀ e ∈ new_events,
          e.comment_id ∈ existing_events.map (fun e => e.comment_id)) →
        (merge_events existing_events new_events).length =
          existing_events.length) := by
  constructor
  · intro key store comments nowIso saveOk merged hk hc hn hm hlen
    unfold mainRun
    simp only [hk, hc, hn, hm, Bool.not_true, Bool.false_eq_true, if_false]
    rw [if_pos hlen]
  · intro existing_events new_events hnd hsub
    have hperm := List.perm_insertionSort (keyDesc mergeSortKey)
      ((eventDict new_events (eventDict existing_events [])).map (fun p => p.2))
    unfold merge_events
    rw [hperm.length_eq, List.length_map]
    obtain ⟨hkeys0, hlen0⟩ := eventDict_keys_fresh existing_events [] hnd (by simp)
    have hsub2 : ∀ e ∈ new_events, e.comment_id ∈
        (eventDict existing_events []).map (fun p => p.1) := by
      intro e he
      rw [hkeys0]
      simpa using hsub e he
    obtain ⟨hkeys1, hlen1⟩ := eventDict_keys_subset new_events _ hsub2
    rw [hlen1, hlen0]
    simp

def c10stored : EventRecord :=
  { comment_id := ("c5"), text := ("old"), author := ("a"),
    published_at := ("p"), extracted_at := some ("2020-01-01T00:00:00Z") }

def c10incoming : EventRecord :=
  { comment_id := ("c5"), text := ("new"), author := ("a"),
    published_at := ("p"), extracted_at := some ("2024-01-01T00:00:00Z") }

theorem claim_c10_witness :
    mainRun (some ("key"))
      (StoreFile.wellFormed (JValue.jarr [eventToJson c10stored]))
      [c5comment] ("2024-01-01T00:00:00") true = (0, none)
    ∧ (merge_events [c10stored] [c10incoming]).length = 1 := by
  constructor
  · exact claim_c10_no_save_when_no_new.1 (some ("key"))
      (StoreFile.wellFormed (JValue.jarr [eventToJson c10stored]))
      [c5comment] ("2024-01-01T00:00:00") true
      ((merge_events_json
        (load_existing_events
          (StoreFile.wellFormed (JValue.jarr [eventToJson c10stored])))
        ((analyze_comments ("2024-01-01T00:00:00") [c5comment]).map
          eventToJson)).getD [])
      (by decide) rfl rfl rfl rfl
  · have h := claim_c10_no_save_when_no_new.2 [c10stored] [c10incoming]
      (by decide) (by decide)
    simpa using h
